import Mathlib

/-!
Verification development for the keytalk conversation-reconciliation core
(`src/pages/inbox.tsx` and `src/pages/chat/[conversationId].tsx`).

The TypeScript code is shallowly embedded: the asynchronous remote client is
modelled as a record of pure response maps (`Remote`), the per-owner
localStorage overlay as `LocalStore`, and each stateful handler as a pure
function from those inputs to its published result.  A thrown exception is
modelled as `Except.error ()`; timestamps (`Date`) are modelled as
milliseconds (`Nat`).
-/

namespace Keytalk

/-- Consent states of the remote adapter (the `ConsentState` enum of the
XMTP browser SDK).  `other n` stands for any unrecognized enum value, so that
the catch-all `else` branch of the classification chain can be exercised. -/
inductive ConsentState where
  | Allowed
  | Unknown
  | Denied
  | other (n : Nat)
deriving DecidableEq, Repr

/-- Decoded message content.  `str` is plain text (`typeof content ===
'string'`); `obj text inner` is a truthy structured object whose optional
`text` and `content` fields are recorded only when they are strings (the code
tests `typeof === 'string'` on each); `nonText` is any other value
(null, number, ...), for which the extraction chain yields no text. -/
inductive MsgContent where
  | str (s : String)
  | obj (text : Option String) (inner : Option String)
  | nonText
deriving DecidableEq, Repr

/-- A decoded message as the inbox and chat pages use it: id, sender inbox id,
content, sent timestamp (ms) and owning conversation id. -/
structure Message where
  id : String
  senderInboxId : String
  content : MsgContent
  sentAt : Nat
  conversationId : String
deriving DecidableEq, Repr

/-- A remote conversation handle after a successful per-conversation sync:
its id, consent state, the bounded message window returned by
`messages({ limit: 10n })` (oldest first) and the optional peer inbox id. -/
structure Conversation where
  id : String
  consent : ConsentState
  messages : List Message
  peerInboxId : Option String
deriving DecidableEq, Repr

/-- The `ConversationItem` record published into the sidebar views. -/
structure ViewEntry where
  id : String
  peerAddress : Option String
  nickname : Option String
  unreadCount : Nat
  lastMessage : String
  lastMessageTime : Option Nat
deriving DecidableEq, Repr

/-- The per-owner localStorage overlay consulted by a reconciliation pass:
the `xmtp_blocked_{address}` id list, the `xmtp_lastread_{address}_{id}`
timestamps and the `xmtp_nickname_{address}_{id}` entries. -/
structure LocalStore where
  blockedIds : List String
  lastRead : String → Option Nat
  nicknames : String → Option String

/-- The remote adapter as one reconciliation pass observes it.  An element
`Except.error ()` of `listing` is a listed conversation whose per-item calls
(`sync`, `consentState`, `messages`) throw; `getById id` is the combined
outcome of `getConversationById` plus the subsequent `sync`/`messages` calls:
`ok (some c)` resolves, `ok none` resolves to nothing, `error ()` throws. -/
structure Remote where
  listing : List (Except Unit Conversation)
  getById : String → Except Unit (Option Conversation)

/-- The conversations that the remote listing successfully enumerates. -/
def listedConvos (remote : Remote) : List Conversation :=
  remote.listing.filterMap fun e =>
    match e with
    | Except.ok c => some c
    | Except.error _ => none

/-- Preview-text extraction (inbox.tsx lines 268-282 and 368-381): a plain
string is used as is; a structured object contributes its `text` field when
that is a string, else its `content` field when that is a string; everything
else yields the empty string.  The argument is the most recent message of the
window, `none` when the window is empty. -/
def extractContent : Option Message → String
  | none => ""
  | some m =>
    match m.content with
    | MsgContent.str s => s
    | MsgContent.obj (some t) _ => t
    | MsgContent.obj none (some c) => c
    | MsgContent.obj none none => ""
    | MsgContent.nonText => ""

/-- Unread computation (inbox.tsx lines 286-307).  With a stored last-read
time, peer messages (sender differs from the own inbox id) are filtered and
then those strictly newer than the last-read time are counted; with no stored
time every peer message in the window counts.  (`msg.sentAt` is a `Date`
object in the source, hence always truthy, so the `msg.sentAt &&` guard never
excludes a message and is not modelled.) -/
def unreadCount (messages : List Message) (myInboxId : String)
    (lastReadTime : Option Nat) : Nat :=
  match lastReadTime with
  | some t =>
    (((messages.filter fun m => m.senderInboxId != myInboxId).filter
      fun m => t < m.sentAt)).length
  | none => (messages.filter fun m => m.senderInboxId != myInboxId).length

/-- JavaScript's `x || undefined` applied to a nullable string: the empty
string is falsy and coerces to `undefined`. -/
def orUndefined : Option String → Option String
  | none => none
  | some s => if s = "" then none else some s

/-- The `ConversationItem` built for one listed conversation
(inbox.tsx lines 262-328): last message is the final element of the
oldest-first window. -/
def mkItem (myInboxId : String) (store : LocalStore) (c : Conversation) :
    ViewEntry :=
  let lastMessage := c.messages.getLast?
  { id := c.id
    peerAddress := c.peerInboxId
    nickname := orUndefined (store.nicknames c.id)
    unreadCount := unreadCount c.messages myInboxId (store.lastRead c.id)
    lastMessage := extractContent lastMessage
    lastMessageTime := lastMessage.map Message.sentAt }

/-- The three sidebar buckets. -/
inductive Bucket where
  | inbox
  | requests
  | blocked
deriving DecidableEq, Repr

/-- The classification chain of inbox.tsx lines 330-347: Allowed goes to the
inbox, Unknown goes to requests only when some message in the window was
authored by the peer, Denied goes to blocked, and any other state falls to
the logging-only `else` branch and is placed nowhere. -/
def classifyBucket (myInboxId : String) (c : Conversation) : Option Bucket :=
  match c.consent with
  | ConsentState.Allowed => some Bucket.inbox
  | ConsentState.Unknown =>
    if c.messages.any fun m => m.senderInboxId != myInboxId then
      some Bucket.requests
    else
      none
  | ConsentState.Denied => some Bucket.blocked
  | ConsentState.other _ => none

/-- Appending the freshly built `ConversationItem` to the bucket chosen by
the classification chain (`allowedConvos.push` / `requestConvos.push` /
`blockedConvos.push`), or to none of them. -/
def pushBucket (ob : Option Bucket) (item : ViewEntry)
    (acc : List ViewEntry × List ViewEntry × List ViewEntry) :
    List ViewEntry × List ViewEntry × List ViewEntry :=
  match ob, acc with
  | some Bucket.inbox, (a, r, b) => (a ++ [item], r, b)
  | some Bucket.requests, (a, r, b) => (a, r ++ [item], b)
  | some Bucket.blocked, (a, r, b) => (a, r, b ++ [item])
  | none, acc => acc

/-- The main classification loop (inbox.tsx lines 254-348) over the listed
conversations, carrying the three buckets being built.  The loop body runs
inside the pass-wide `try`, so the first listed conversation whose per-item
calls throw aborts the whole pass (`Except.error ()`). -/
def processListed (myInboxId : String) (store : LocalStore) :
    List (Except Unit Conversation) →
    List ViewEntry × List ViewEntry × List ViewEntry →
    Except Unit (List ViewEntry × List ViewEntry × List ViewEntry)
  | [], acc => Except.ok acc
  | Except.error _ :: _, _ => Except.error ()
  | Except.ok c :: rest, acc =>
    processListed myInboxId store rest
      (pushBucket (classifyBucket myInboxId c) (mkItem myInboxId store c) acc)

/-- The blocked-overlay loop (inbox.tsx lines 352-397) over the snapshot of
locally stored blocked ids.  `blocked` is the blocked bucket being extended
(initially the Denied-classified entries); `markers` is the live
`xmtp_blocked_{address}` storage.  An id already present in the blocked
bucket is skipped; otherwise a direct fetch is attempted inside a per-item
`try`: when it resolves, an entry with `unreadCount := 0` is appended; when
it resolves to nothing, nothing happens; when it throws, the id's marker is
removed from storage (`removeBlockedConvoId`). -/
def overlayLoop (remote : Remote) (store : LocalStore) :
    List String → List ViewEntry → List String → List ViewEntry × List String
  | [], blocked, markers => (blocked, markers)
  | bid :: rest, blocked, markers =>
    if blocked.any fun e => e.id == bid then
      overlayLoop remote store rest blocked markers
    else
      match remote.getById bid with
      | Except.error _ =>
        overlayLoop remote store rest blocked (markers.filter fun id => id ≠ bid)
      | Except.ok none => overlayLoop remote store rest blocked markers
      | Except.ok (some c) =>
        let lastMessage := c.messages.getLast?
        let entry : ViewEntry :=
          { id := bid
            peerAddress := none
            nickname := orUndefined (store.nicknames bid)
            unreadCount := 0
            lastMessage := extractContent lastMessage
            lastMessageTime := lastMessage.map Message.sentAt }
        overlayLoop remote store rest (blocked ++ [entry]) markers

/-- What one reconciliation pass publishes: the three buckets handed to
`setConversations`/`setRequests`/`setBlockedConvos`, plus the blocked-marker
storage as the pass leaves it. -/
structure LoadResult where
  conversations : List ViewEntry
  requests : List ViewEntry
  blocked : List ViewEntry
  blockedIdsAfter : List String
deriving DecidableEq, Repr

/-- One reconciliation pass (`loadConversations`, inbox.tsx lines 213-408).
`Except.error ()` is the outer `catch`: the error banner is set and none of
the three buckets is published.  The deleted-id pre-loop (lines 230-244) only
syncs and logs, contributing nothing to the published result of this static
remote model, and is therefore not modelled. -/
def loadConversations (remote : Remote) (store : LocalStore)
    (myInboxId : String) : Except Unit LoadResult :=
  match processListed myInboxId store remote.listing ([], [], []) with
  | Except.error _ => Except.error ()
  | Except.ok (a, r, b) =>
    Except.ok
      { conversations := a
        requests := r
        blocked :=
          (overlayLoop remote store store.blockedIds b store.blockedIds).1
        blockedIdsAfter :=
          (overlayLoop remote store store.blockedIds b store.blockedIds).2 }

/-- One stream delivery on the open chat page (lines 79-94 of
`[conversationId].tsx`): a message for another conversation is ignored; a
message for the open one is appended unless its id already occurs. -/
def deliverMessage (activeId : String) (prev : List Message) (m : Message) :
    List Message :=
  if m.conversationId == activeId then
    if prev.any fun p => p.id == m.id then prev else prev ++ [m]
  else
    prev

/-- JavaScript `String.prototype.trim`, modelled on the character list with
`Char.isWhitespace` as the whitespace class: drop whitespace from the front,
then from the back. -/
def jsTrim (s : String) : String :=
  String.mk (((s.data.dropWhile Char.isWhitespace).reverse.dropWhile
    Char.isWhitespace).reverse)

/-- The nickname overlay of one owner: conversation id to stored nickname
(the localStorage keys `xmtp_nickname_{address}_{convoId}`). -/
def NickStore : Type := String → Option String

/-- `setNickname` (inbox.tsx lines 120-128): a value that trims to the empty
string (falsy) removes the stored nickname, anything else stores the trimmed
value. -/
def setNickname (store : NickStore) (convoId : String) (nickname : String) :
    NickStore :=
  if jsTrim nickname = "" then
    fun id => if id = convoId then none else store id
  else
    fun id => if id = convoId then some (jsTrim nickname) else store id

/-- `getNickname` (inbox.tsx lines 114-118). -/
def getNickname (store : NickStore) (convoId : String) : Option String :=
  store convoId

/-- The client surface `handleStartDm` touches: the reachability probe
(`canMessage`, keyed by the lowercased identifier) and
`createDmWithIdentifier`, which fetches or creates the DM for an identifier
and reports its current consent state. -/
structure DmClient where
  canMessage : String → Bool
  createDmWithIdentifier : String → Conversation

/-- The observable outcome of `handleStartDm`: the conversation navigated to
and its consent state when the handler finishes. -/
structure DmStart where
  convoId : String
  consentAfter : ConsentState
deriving DecidableEq, Repr

/-- `handleStartDm` (inbox.tsx lines 453-489).  A blank input returns before
any remote call (`none`).  Otherwise the reachability probe is consulted but
a negative answer only logs a warning, the DM is created or fetched, and a
Denied consent state is reset to Unknown; the handler never writes Allowed. -/
def handleStartDm (client : DmClient) (addressToMessage : String) :
    Option DmStart :=
  if jsTrim addressToMessage = "" then
    none
  else
    let addr := jsTrim addressToMessage
    let _reachable := client.canMessage addr
    let dm := client.createDmWithIdentifier addr
    let consentAfter :=
      if dm.consent = ConsentState.Denied then ConsentState.Unknown
      else dm.consent
    some { convoId := dm.id, consentAfter := consentAfter }

/-! ### Concrete fixtures

Small concrete remote/overlay states used to evaluate the pass at explicit
inputs. -/

/-- A plain-text message from the peer of conversation `"x"`. -/
def msgPeer : Message :=
  { id := "m1", senderInboxId := "peer", content := MsgContent.str "hi",
    sentAt := 5, conversationId := "x" }

/-- A conversation `"x"` that the remote lists with consent Allowed. -/
def convoX : Conversation :=
  { id := "x", consent := ConsentState.Allowed, messages := [msgPeer],
    peerInboxId := some "peer" }

/-- A message whose content is a structured object carrying a `text` field. -/
def msgObj : Message :=
  { id := "m2", senderInboxId := "peer",
    content := MsgContent.obj (some "hi") none,
    sentAt := 7, conversationId := "y" }

/-- A listed Allowed conversation `"y"` whose last message is structured. -/
def convoY : Conversation :=
  { id := "y", consent := ConsentState.Allowed, messages := [msgObj],
    peerInboxId := none }

/-- An overlay with no markers, read times or nicknames. -/
def storeEmpty : LocalStore :=
  { blockedIds := [], lastRead := fun _ => none, nicknames := fun _ => none }

/-- An overlay whose only fact is a blocked marker for `"x"`. -/
def storeBlockedX : LocalStore :=
  { blockedIds := ["x"], lastRead := fun _ => none, nicknames := fun _ => none }

/-- A remote that still lists the locally blocked `"x"` as Allowed and also
resolves it on a direct fetch. -/
def remoteC1 : Remote :=
  { listing := [Except.ok convoX],
    getById := fun id =>
      if id = "x" then Except.ok (some convoX) else Except.ok none }

/-- The inbox view entry built for `convoX`. -/
def itemX : ViewEntry :=
  { id := "x", peerAddress := some "peer", nickname := none,
    unreadCount := 1, lastMessage := "hi", lastMessageTime := some 5 }

/-- The blocked view entry the overlay loop synthesizes for `"x"`. -/
def entryX : ViewEntry :=
  { id := "x", peerAddress := none, nickname := none, unreadCount := 0,
    lastMessage := "hi", lastMessageTime := some 5 }

/-- The pass result for `remoteC1`/`storeBlockedX`: `"x"` is published both in
the inbox bucket and in the blocked bucket. -/
def resC1 : LoadResult :=
  { conversations := [itemX], requests := [], blocked := [entryX],
    blockedIdsAfter := ["x"] }

/-- A remote whose first listed conversation fails its per-item calls while
the second one is fine. -/
def remoteC2 : Remote :=
  { listing := [Except.error (), Except.ok convoX],
    getById := fun _ => Except.ok none }

/-- The same remote with the failing conversation absent. -/
def remoteC2ok : Remote :=
  { listing := [Except.ok convoX], getById := fun _ => Except.ok none }

/-- The pass result for `remoteC2ok`/`storeEmpty`: `convoX` alone, in the
inbox bucket. -/
def resC2ok : LoadResult :=
  { conversations := [itemX], requests := [], blocked := [],
    blockedIdsAfter := [] }

/-- An overlay whose only fact is a blocked marker for `"b"`. -/
def storeBlockedB : LocalStore :=
  { blockedIds := ["b"], lastRead := fun _ => none, nicknames := fun _ => none }

/-- A remote that lists nothing and resolves every direct fetch to nothing
(the id is reported not found, without throwing). -/
def remoteC3 : Remote :=
  { listing := [], getById := fun _ => Except.ok none }

/-- The pass result for `remoteC3`/`storeBlockedB`: empty buckets, and the
blocked marker for `"b"` still in storage. -/
def resC3 : LoadResult :=
  { conversations := [], requests := [], blocked := [],
    blockedIdsAfter := ["b"] }

/-- A remote listing only `convoY` (structured last message). -/
def remoteC6 : Remote :=
  { listing := [Except.ok convoY], getById := fun _ => Except.ok none }

/-- The inbox view entry built for `convoY`. -/
def itemY : ViewEntry :=
  { id := "y", peerAddress := none, nickname := none, unreadCount := 1,
    lastMessage := "hi", lastMessageTime := some 7 }

/-- The pass result for `remoteC6`/`storeEmpty`: the structured `text` field
`"hi"` is published as the preview. -/
def resC6 : LoadResult :=
  { conversations := [itemY], requests := [], blocked := [],
    blockedIdsAfter := [] }

/-- A client whose reachability probe is negative for every identifier and
whose created DM starts out Denied. -/
def clientW : DmClient :=
  { canMessage := fun _ => false
    createDmWithIdentifier := fun _ =>
      { id := "d", consent := ConsentState.Denied, messages := [],
        peerInboxId := none } }

/-- The outcome `handleStartDm` produces for `clientW`. -/
def dmStartW : DmStart :=
  { convoId := "d", consentAfter := ConsentState.Unknown }

/-- A remote that lists nothing but still resolves the blocked `"x"`. -/
def remoteC9 : Remote :=
  { listing := [],
    getById := fun id =>
      if id = "x" then Except.ok (some convoX) else Except.ok none }

/-- The pass result for `remoteC9`/`storeBlockedX`. -/
def resC9 : LoadResult :=
  { conversations := [], requests := [], blocked := [entryX],
    blockedIdsAfter := ["x"] }

/-! ### Helper lemmas -/

theorem head?_dropWhile_false {α : Type} {p : α → Bool} {l : List α} {c : α}
    (h : (l.dropWhile p).head? = some c) : p c = false := by
  induction l with
  | nil => simp [List.dropWhile] at h
  | cons x xs ih =>
    rcases hx : p x with _ | _
    · rw [List.dropWhile_cons_of_neg (by simp [hx])] at h
      simp only [List.head?_cons, Option.some.injEq] at h
      exact h ▸ hx
    · rw [List.dropWhile_cons_of_pos hx] at h
      exact ih h

theorem jsTrim_data (s : String) :
    (jsTrim s).data =
      ((s.data.dropWhile Char.isWhitespace).reverse.dropWhile
        Char.isWhitespace).reverse := rfl

/-- A trimmed string never starts with whitespace. -/
theorem jsTrim_head_not_ws {s : String} {c : Char}
    (h : (jsTrim s).data.head? = some c) : c.isWhitespace = false := by
  rw [jsTrim_data, List.head?_reverse] at h
  have hsplit :
      ((s.data.dropWhile Char.isWhitespace).reverse.takeWhile
          Char.isWhitespace) ++
        ((s.data.dropWhile Char.isWhitespace).reverse.dropWhile
          Char.isWhitespace) =
        (s.data.dropWhile Char.isWhitespace).reverse :=
    List.takeWhile_append_dropWhile _ _
  have hne :
      (s.data.dropWhile Char.isWhitespace).reverse.dropWhile
        Char.isWhitespace ≠ [] := by
    intro hnil
    rw [hnil] at h
    simp at h
  have hlast :
      ((s.data.dropWhile Char.isWhitespace).reverse.dropWhile
          Char.isWhitespace).getLast? =
        (s.data.dropWhile Char.isWhitespace).reverse.getLast? := by
    conv_rhs => rw [← hsplit]
    exact (List.getLast?_append_of_ne_nil _ hne).symm
  rw [hlast, List.getLast?_reverse] at h
  exact head?_dropWhile_false h

/-- A trimmed string never ends with whitespace. -/
theorem jsTrim_getLast_not_ws {s : String} {c : Char}
    (h : (jsTrim s).data.getLast? = some c) : c.isWhitespace = false := by
  rw [jsTrim_data, List.getLast?_reverse] at h
  exact head?_dropWhile_false h

/-- A string made of whitespace only trims to the empty string. -/
theorem jsTrim_of_all_ws {s : String} (h : ∀ ch ∈ s.data, ch.isWhitespace) :
    jsTrim s = "" := by
  have h1 : s.data.dropWhile Char.isWhitespace = [] :=
    List.dropWhile_eq_nil_iff.mpr h
  rw [jsTrim, h1]
  rfl

theorem mkItem_id (myInboxId : String) (store : LocalStore)
    (c : Conversation) : (mkItem myInboxId store c).id = c.id := rfl

theorem mem_if_append {α : Type} {e item : α} {xs : List α} {cond : Prop}
    [Decidable cond] (h : e ∈ if cond then xs ++ [item] else xs) :
    e ∈ xs ∨ (cond ∧ e = item) := by
  by_cases hc : cond
  · rw [if_pos hc] at h
    rcases List.mem_append.mp h with h1 | h1
    · exact Or.inl h1
    · exact Or.inr ⟨hc, by simpa using h1⟩
  · rw [if_neg hc] at h
    exact Or.inl h

theorem pushBucket_fst (ob : Option Bucket) (item : ViewEntry)
    (acc : List ViewEntry × List ViewEntry × List ViewEntry) :
    (pushBucket ob item acc).1 =
      if ob = some Bucket.inbox then acc.1 ++ [item] else acc.1 := by
  obtain ⟨a, r, b⟩ := acc
  rcases ob with _ | bk
  · rfl
  · cases bk <;> simp [pushBucket]

theorem pushBucket_snd_fst (ob : Option Bucket) (item : ViewEntry)
    (acc : List ViewEntry × List ViewEntry × List ViewEntry) :
    (pushBucket ob item acc).2.1 =
      if ob = some Bucket.requests then acc.2.1 ++ [item] else acc.2.1 := by
  obtain ⟨a, r, b⟩ := acc
  rcases ob with _ | bk
  · rfl
  · cases bk <;> simp [pushBucket]

theorem pushBucket_snd_snd (ob : Option Bucket) (item : ViewEntry)
    (acc : List ViewEntry × List ViewEntry × List ViewEntry) :
    (pushBucket ob item acc).2.2 =
      if ob = some Bucket.blocked then acc.2.2 ++ [item] else acc.2.2 := by
  obtain ⟨a, r, b⟩ := acc
  rcases ob with _ | bk
  · rfl
  · cases bk <;> simp [pushBucket]

theorem processListed_error_of_mem (myInboxId : String) (store : LocalStore) :
    ∀ (l : List (Except Unit Conversation))
      (acc : List ViewEntry × List ViewEntry × List ViewEntry),
      Except.error () ∈ l →
      processListed myInboxId store l acc = Except.error () := by
  intro l
  induction l with
  | nil =>
    intro acc h
    simp at h
  | cons x rest ih =>
    intro acc h
    rcases x with e | c
    · cases e
      rfl
    · rcases List.mem_cons.mp h with heq | hmem
      · simp at heq
      · simp only [processListed]
        exact ih _ hmem

theorem processListed_ok_of_no_error (myInboxId : String)
    (store : LocalStore) :
    ∀ (l : List (Except Unit Conversation))
      (acc : List ViewEntry × List ViewEntry × List ViewEntry),
      (∀ x ∈ l, x ≠ Except.error ()) →
      ∃ t, processListed myInboxId store l acc = Except.ok t := by
  intro l
  induction l with
  | nil =>
    intro acc _
    exact ⟨acc, rfl⟩
  | cons x rest ih =>
    intro acc h
    rcases x with e | c
    · cases e
      exact absurd rfl (h _ (List.mem_cons_self _ _))
    · simp only [processListed]
      exact ih _ fun x hx => h x (List.mem_cons_of_mem _ hx)

theorem processListed_mem (myInboxId : String) (store : LocalStore) :
    ∀ (l : List (Except Unit Conversation))
      (acc : List ViewEntry × List ViewEntry × List ViewEntry)
      (a r b : List ViewEntry),
      processListed myInboxId store l acc = Except.ok (a, r, b) →
      (∀ e ∈ a, e ∈ acc.1 ∨ ∃ c, Except.ok c ∈ l ∧
        classifyBucket myInboxId c = some Bucket.inbox ∧
        e = mkItem myInboxId store c) ∧
      (∀ e ∈ r, e ∈ acc.2.1 ∨ ∃ c, Except.ok c ∈ l ∧
        classifyBucket myInboxId c = some Bucket.requests ∧
        e = mkItem myInboxId store c) ∧
      (∀ e ∈ b, e ∈ acc.2.2 ∨ ∃ c, Except.ok c ∈ l ∧
        classifyBucket myInboxId c = some Bucket.blocked ∧
        e = mkItem myInboxId store c) := by
  intro l
  induction l with
  | nil =>
    intro acc a r b h
    simp only [processListed] at h
    have hacc := Except.ok.inj h
    subst hacc
    exact ⟨fun e he => Or.inl he, fun e he => Or.inl he,
      fun e he => Or.inl he⟩
  | cons x rest ih =>
    intro acc a r b h
    rcases x with e | c
    · cases e
      simp only [processListed] at h
      exact absurd h (by simp)
    · simp only [processListed] at h
      obtain ⟨ih1, ih2, ih3⟩ := ih _ a r b h
      refine ⟨?_, ?_, ?_⟩
      · intro e he
        rcases ih1 e he with hacc | ⟨c', hc', hcl, he⟩
        · rw [pushBucket_fst] at hacc
          rcases mem_if_append hacc with h1 | ⟨hcond, heq⟩
          · exact Or.inl h1
          · exact Or.inr ⟨c, List.mem_cons_self _ _, hcond, heq⟩
        · exact Or.inr ⟨c', List.mem_cons_of_mem _ hc', hcl, he⟩
      · intro e he
        rcases ih2 e he with hacc | ⟨c', hc', hcl, he⟩
        · rw [pushBucket_snd_fst] at hacc
          rcases mem_if_append hacc with h1 | ⟨hcond, heq⟩
          · exact Or.inl h1
          · exact Or.inr ⟨c, List.mem_cons_self _ _, hcond, heq⟩
        · exact Or.inr ⟨c', List.mem_cons_of_mem _ hc', hcl, he⟩
      · intro e he
        rcases ih3 e he with hacc | ⟨c', hc', hcl, he⟩
        · rw [pushBucket_snd_snd] at hacc
          rcases mem_if_append hacc with h1 | ⟨hcond, heq⟩
          · exact Or.inl h1
          · exact Or.inr ⟨c, List.mem_cons_self _ _, hcond, heq⟩
        · exact Or.inr ⟨c', List.mem_cons_of_mem _ hc', hcl, he⟩

theorem classifyBucket_inbox_consent {myInboxId : String} {c : Conversation}
    (h : classifyBucket myInboxId c = some Bucket.inbox) :
    c.consent = ConsentState.Allowed := by
  rcases hc : c.consent with _ | _ | _ | n
  · rfl
  · simp only [classifyBucket, hc] at h
    split at h <;> simp at h
  · simp [classifyBucket, hc] at h
  · simp [classifyBucket, hc] at h

theorem classifyBucket_requests_consent {myInboxId : String}
    {c : Conversation}
    (h : classifyBucket myInboxId c = some Bucket.requests) :
    c.consent = ConsentState.Unknown := by
  rcases hc : c.consent with _ | _ | _ | n
  · simp [classifyBucket, hc] at h
  · rfl
  · simp [classifyBucket, hc] at h
  · simp [classifyBucket, hc] at h

theorem classifyBucket_blocked_consent {myInboxId : String}
    {c : Conversation}
    (h : classifyBucket myInboxId c = some Bucket.blocked) :
    c.consent = ConsentState.Denied := by
  rcases hc : c.consent with _ | _ | _ | n
  · simp [classifyBucket, hc] at h
  · simp only [classifyBucket, hc] at h
    split at h <;> simp at h
  · rfl
  · simp [classifyBucket, hc] at h

theorem mem_listedConvos {remote : Remote} {c : Conversation}
    (h : Except.ok c ∈ remote.listing) : c ∈ listedConvos remote := by
  unfold listedConvos
  exact List.mem_filterMap.mpr ⟨Except.ok c, h, rfl⟩

theorem overlayLoop_blocked_mono (remote : Remote) (store : LocalStore) :
    ∀ (l : List String) (blocked : List ViewEntry) (markers : List String)
      (e : ViewEntry), e ∈ blocked →
      e ∈ (overlayLoop remote store l blocked markers).1 := by
  intro l
  induction l with
  | nil =>
    intro blocked markers e he
    exact he
  | cons bid rest ih =>
    intro blocked markers e he
    rw [overlayLoop]
    by_cases hskip : (blocked.any fun x => x.id == bid) = true
    · rw [if_pos hskip]
      exact ih _ _ _ he
    · rw [if_neg hskip]
      rcases hg : remote.getById bid with u | oc
      · exact ih _ _ _ he
      · rcases oc with _ | c
        · exact ih _ _ _ he
        · exact ih _ _ _ (List.mem_append_left _ he)

theorem overlayLoop_mem (remote : Remote) (store : LocalStore) :
    ∀ (l : List String) (blocked : List ViewEntry) (markers : List String)
      (e : ViewEntry), e ∈ (overlayLoop remote store l blocked markers).1 →
      e ∈ blocked ∨
        (e.id ∈ l ∧ e.unreadCount = 0 ∧ e.peerAddress = none) := by
  intro l
  induction l with
  | nil =>
    intro blocked markers e he
    exact Or.inl he
  | cons bid rest ih =>
    intro blocked markers e he
    rw [overlayLoop] at he
    by_cases hskip : (blocked.any fun x => x.id == bid) = true
    · rw [if_pos hskip] at he
      rcases ih _ _ _ he with h1 | ⟨h1, h2, h3⟩
      · exact Or.inl h1
      · exact Or.inr ⟨List.mem_cons_of_mem _ h1, h2, h3⟩
    · rw [if_neg hskip] at he
      rcases hg : remote.getById bid with u | oc
      · rw [hg] at he
        rcases ih _ _ _ he with h1 | ⟨h1, h2, h3⟩
        · exact Or.inl h1
        · exact Or.inr ⟨List.mem_cons_of_mem _ h1, h2, h3⟩
      · rcases oc with _ | c
        · rw [hg] at he
          rcases ih _ _ _ he with h1 | ⟨h1, h2, h3⟩
          · exact Or.inl h1
          · exact Or.inr ⟨List.mem_cons_of_mem _ h1, h2, h3⟩
        · rw [hg] at he
          rcases ih _ _ _ he with h1 | ⟨h1, h2, h3⟩
          · rcases List.mem_append.mp h1 with h4 | h4
            · exact Or.inl h4
            · have he4 := List.mem_singleton.mp h4
              subst he4
              exact Or.inr ⟨List.mem_cons_self _ _, rfl, rfl⟩
          · exact Or.inr ⟨List.mem_cons_of_mem _ h1, h2, h3⟩

theorem overlayLoop_markers_sub (remote : Remote) (store : LocalStore) :
    ∀ (l : List String) (blocked : List ViewEntry) (markers : List String)
      (id : String), id ∈ (overlayLoop remote store l blocked markers).2 →
      id ∈ markers := by
  intro l
  induction l with
  | nil =>
    intro blocked markers id h
    exact h
  | cons bid rest ih =>
    intro blocked markers id h
    rw [overlayLoop] at h
    by_cases hskip : (blocked.any fun x => x.id == bid) = true
    · rw [if_pos hskip] at h
      exact ih _ _ _ h
    · rw [if_neg hskip] at h
      rcases hg : remote.getById bid with u | oc
      · rw [hg] at h
        exact (List.mem_filter.mp (ih _ _ _ h)).1
      · rcases oc with _ | c
        · rw [hg] at h
          exact ih _ _ _ h
        · rw [hg] at h
          exact ih _ _ _ h

theorem overlayLoop_markers_keep (remote : Remote) (store : LocalStore) :
    ∀ (l : List String) (blocked : List ViewEntry) (markers : List String)
      (bid : String), remote.getById bid ≠ Except.error () →
      bid ∈ markers → bid ∈ (overlayLoop remote store l blocked markers).2 := by
  intro l
  induction l with
  | nil =>
    intro blocked markers bid _ hmem
    exact hmem
  | cons x rest ih =>
    intro blocked markers bid hne hmem
    rw [overlayLoop]
    by_cases hskip : (blocked.any fun e => e.id == x) = true
    · rw [if_pos hskip]
      exact ih _ _ _ hne hmem
    · rw [if_neg hskip]
      rcases hg : remote.getById x with u | oc
      · cases u
        have hbx : bid ≠ x := by
          intro hbx
          exact hne (hbx ▸ hg)
        exact ih _ _ _ hne
          (List.mem_filter.mpr ⟨hmem, by simpa using hbx⟩)
      · rcases oc with _ | c
        · exact ih _ _ _ hne hmem
        · exact ih _ _ _ hne hmem

theorem overlayLoop_markers_remove (remote : Remote) (store : LocalStore) :
    ∀ (l : List String) (blocked : List ViewEntry) (markers : List String)
      (bid : String), l.Nodup → bid ∈ l →
      (∀ e ∈ blocked, e.id ≠ bid) →
      remote.getById bid = Except.error () →
      bid ∉ (overlayLoop remote store l blocked markers).2 := by
  intro l
  induction l with
  | nil =>
    intro blocked markers bid _ hmem _ _
    simp at hmem
  | cons x rest ih =>
    intro blocked markers bid hnodup hmem hblocked hgid
    by_cases hbx : bid = x
    · subst hbx
      have hskip : (blocked.any fun e => e.id == bid) = false :=
        List.any_eq_false.mpr fun e hemem => by
          simpa using hblocked e hemem
      rw [overlayLoop, if_neg (by simp [hskip]), hgid]
      intro habs
      have := List.mem_filter.mp (overlayLoop_markers_sub remote store
        rest blocked _ bid habs)
      simp at this
    · have hmem' : bid ∈ rest := by
        rcases List.mem_cons.mp hmem with h1 | h1
        · exact absurd h1 hbx
        · exact h1
      have hnodup' : rest.Nodup := (List.nodup_cons.mp hnodup).2
      rw [overlayLoop]
      by_cases hskip : (blocked.any fun e => e.id == x) = true
      · rw [if_pos hskip]
        exact ih _ _ _ hnodup' hmem' hblocked hgid
      · rw [if_neg hskip]
        rcases hg : remote.getById x with u | oc
        · exact ih _ _ _ hnodup' hmem' hblocked hgid
        · rcases oc with _ | c
          · exact ih _ _ _ hnodup' hmem' hblocked hgid
          · refine ih _ _ _ hnodup' hmem' ?_ hgid
            intro e he
            rcases List.mem_append.mp he with h1 | h1
            · exact hblocked e h1
            · have he1 : e.id = x := by
                rw [List.mem_singleton.mp h1]
              rw [he1]
              exact fun hxb => hbx hxb.symm

theorem overlayLoop_add (remote : Remote) (store : LocalStore) :
    ∀ (l : List String) (blocked : List ViewEntry) (markers : List String)
      (bid : String) (c : Conversation), bid ∈ l →
      remote.getById bid = Except.ok (some c) →
      bid ∈ (overlayLoop remote store l blocked markers).1.map
        ViewEntry.id := by
  intro l
  induction l with
  | nil =>
    intro blocked markers bid c hmem _
    simp at hmem
  | cons x rest ih =>
    intro blocked markers bid c hmem hg
    by_cases hbx : bid = x
    · subst hbx
      rw [overlayLoop]
      by_cases hskip : (blocked.any fun e => e.id == bid) = true
      · rw [if_pos hskip]
        obtain ⟨e, hemem, heid⟩ := List.any_eq_true.mp hskip
        refine List.mem_map.mpr ⟨e, ?_, by simpa using heid⟩
        exact overlayLoop_blocked_mono remote store _ _ _ _ hemem
      · rw [if_neg hskip, hg]
        exact List.mem_map_of_mem ViewEntry.id
          (overlayLoop_blocked_mono remote store _ _ _ _
            (List.mem_append_right _ (List.mem_singleton_self _)))
    · have hmem' : bid ∈ rest := by
        rcases List.mem_cons.mp hmem with h1 | h1
        · exact absurd h1 hbx
        · exact h1
      rw [overlayLoop]
      by_cases hskip : (blocked.any fun e => e.id == x) = true
      · rw [if_pos hskip]
        exact ih _ _ _ _ hmem' hg
      · rw [if_neg hskip]
        rcases hgx : remote.getById x with u | oc
        · exact ih _ _ _ _ hmem' hg
        · rcases oc with _ | cx
          · exact ih _ _ _ _ hmem' hg
          · exact ih _ _ _ _ hmem' hg

/-! ### Claim theorems -/

/-- C10: `setNickname` trims its input before storing: a value that is empty
or whitespace-only removes the stored nickname (a later `getNickname` returns
none); any other value is stored trimmed, so a stored nickname never has
leading or trailing whitespace. -/
theorem c10_setNickname_trims (store : NickStore) (convoId nickname : String) :
    (jsTrim nickname = "" →
      getNickname (setNickname store convoId nickname) convoId = none) ∧
    ((∀ ch ∈ nickname.data, ch.isWhitespace) →
      getNickname (setNickname store convoId nickname) convoId = none) ∧
    (jsTrim nickname ≠ "" →
      getNickname (setNickname store convoId nickname) convoId =
        some (jsTrim nickname)) ∧
    (∀ v, getNickname (setNickname store convoId nickname) convoId = some v →
      (∀ ch, v.data.head? = some ch → ch.isWhitespace = false) ∧
      (∀ ch, v.data.getLast? = some ch → ch.isWhitespace = false)) := by
  refine ⟨?_, ?_, ?_, ?_⟩
  · intro h
    simp [getNickname, setNickname, h]
  · intro h
    simp [getNickname, setNickname, jsTrim_of_all_ws h]
  · intro h
    simp [getNickname, setNickname, h]
  · intro v hv
    by_cases h : jsTrim nickname = ""
    · simp [getNickname, setNickname, h] at hv
    · simp [getNickname, setNickname, h] at hv
      exact ⟨fun ch hch => jsTrim_head_not_ws (hv ▸ hch),
        fun ch hch => jsTrim_getLast_not_ws (hv ▸ hch)⟩

/-- C10 witness: storing `" bob "` yields the trimmed nickname `"bob"`. -/
theorem c10_setNickname_trims_witness :
    getNickname (setNickname (fun _ => none) "c" " bob ") "c" = some "bob" := by
  have h := (c10_setNickname_trims (fun _ => none) "c" " bob ").2.2.1
    (by decide)
  rw [show jsTrim " bob " = "bob" from by decide] at h
  exact h

/-- C4: the classification chain sends Allowed to the inbox, Denied to
blocked, Unknown with a peer-authored message to requests, Unknown without
one nowhere, and any unrecognized consent value nowhere — and processing a
conversation with an unrecognized value completes without error, leaving the
buckets unchanged. -/
theorem c4_classification (myInboxId : String) (c : Conversation) :
    (c.consent = ConsentState.Allowed →
      classifyBucket myInboxId c = some Bucket.inbox) ∧
    (c.consent = ConsentState.Denied →
      classifyBucket myInboxId c = some Bucket.blocked) ∧
    (c.consent = ConsentState.Unknown →
      (∃ m ∈ c.messages, m.senderInboxId ≠ myInboxId) →
      classifyBucket myInboxId c = some Bucket.requests) ∧
    (c.consent = ConsentState.Unknown →
      (∀ m ∈ c.messages, m.senderInboxId = myInboxId) →
      classifyBucket myInboxId c = none) ∧
    (∀ n, c.consent = ConsentState.other n →
      classifyBucket myInboxId c = none ∧
      ∀ (store : LocalStore)
        (acc : List ViewEntry × List ViewEntry × List ViewEntry),
        processListed myInboxId store [Except.ok c] acc = Except.ok acc) := by
  refine ⟨?_, ?_, ?_, ?_, ?_⟩
  · intro h
    simp [classifyBucket, h]
  · intro h
    simp [classifyBucket, h]
  · intro h hm
    obtain ⟨m, hmem, hne⟩ := hm
    have hany : (c.messages.any fun m => m.senderInboxId != myInboxId) = true :=
      List.any_eq_true.mpr ⟨m, hmem, by simpa using hne⟩
    simp [classifyBucket, h, hany]
  · intro h hall
    have hany : (c.messages.any fun m => m.senderInboxId != myInboxId) = false :=
      List.any_eq_false.mpr fun m hm => by simp [hall m hm]
    simp [classifyBucket, h, hany]
  · intro n h
    refine ⟨by simp [classifyBucket, h], fun store acc => ?_⟩
    simp [processListed, pushBucket, classifyBucket, h]

/-- C4 witness: the Allowed conversation `convoX` is classified to the
inbox bucket. -/
theorem c4_classification_witness :
    classifyBucket "me" convoX = some Bucket.inbox :=
  (c4_classification "me" convoX).1 rfl

/-- C5: with no stored last-read time the unread count is the number of
messages in the window authored by someone other than the own identity; with
a stored time it is the number of such messages sent strictly later; the
count the view entry publishes is exactly this function of the window, the
identity and the stored time (and is a `Nat`, hence non-negative). -/
theorem c5_unread_counts (messages : List Message) (myInboxId : String)
    (t : Nat) (store : LocalStore) (c : Conversation) :
    unreadCount messages myInboxId none =
      messages.countP (fun m => decide (m.senderInboxId ≠ myInboxId)) ∧
    unreadCount messages myInboxId (some t) =
      messages.countP
        (fun m => decide (m.senderInboxId ≠ myInboxId ∧ t < m.sentAt)) ∧
    (mkItem myInboxId store c).unreadCount =
      unreadCount c.messages myInboxId (store.lastRead c.id) := by
  refine ⟨?_, ?_, rfl⟩
  · rw [unreadCount, List.countP_eq_length_filter]
    congr 1
    apply List.filter_congr
    intro m _
    by_cases h : m.senderInboxId = myInboxId <;> simp [h]
  · rw [unreadCount, List.filter_filter, List.countP_eq_length_filter]
    congr 1
    apply List.filter_congr
    intro m _
    by_cases h1 : m.senderInboxId = myInboxId <;>
      by_cases h2 : t < m.sentAt <;> simp [h1, h2]

/-- C6 counterexample: the claim says a structured most-recent message always
yields an empty preview, but the pass publishes the structured message's
`text` field `"hi"` as the preview of `convoY`. -/
theorem c6_counterexample :
    loadConversations remoteC6 storeEmpty "me" = Except.ok resC6 ∧
    resC6.conversations.map ViewEntry.lastMessage = ["hi"] ∧
    msgObj.content = MsgContent.obj (some "hi") none ∧
    ("hi" : String) ≠ "" := by
  refine ⟨rfl, rfl, rfl, by decide⟩

/-- C6 amended: the preview of a view entry is the textual projection of the
most recent message's content — the string itself for plain text, the
structured object's `text` field when that is a string, else its `content`
field when that is a string, and the empty string otherwise (or when the
window is empty). -/
theorem c6_preview_projection (myInboxId : String) (store : LocalStore)
    (c : Conversation) (m : Message) :
    ((mkItem myInboxId store c).lastMessage =
      extractContent c.messages.getLast?) ∧
    (∀ s, m.content = MsgContent.str s → extractContent (some m) = s) ∧
    (∀ t o, m.content = MsgContent.obj (some t) o →
      extractContent (some m) = t) ∧
    (∀ s, m.content = MsgContent.obj none (some s) →
      extractContent (some m) = s) ∧
    (m.content = MsgContent.obj none none → extractContent (some m) = "") ∧
    (m.content = MsgContent.nonText → extractContent (some m) = "") ∧
    extractContent none = "" := by
  refine ⟨rfl, ?_, ?_, ?_, ?_, ?_, rfl⟩ <;> intros <;>
    simp [extractContent, *]

/-- C6 witness: the structured message `msgObj` projects to `"hi"`. -/
theorem c6_preview_projection_witness : extractContent (some msgObj) = "hi" :=
  (c6_preview_projection "me" storeEmpty convoY msgObj).2.2.1 "hi" none rfl

/-- C7: delivering a message for the open conversation whose id is already
stored leaves the list unchanged; delivery is idempotent, and delivering the
same message twice into a list that did not contain its id yields exactly one
entry with that id. -/
theorem c7_stream_dedup (activeId : String) (prev : List Message)
    (m : Message) (h : m.conversationId = activeId) :
    ((∃ p ∈ prev, p.id = m.id) → deliverMessage activeId prev m = prev) ∧
    deliverMessage activeId (deliverMessage activeId prev m) m =
      deliverMessage activeId prev m ∧
    (prev.countP (fun p => p.id == m.id) = 0 →
      (deliverMessage activeId (deliverMessage activeId prev m) m).countP
        (fun p => p.id == m.id) = 1) := by
  have hc : (m.conversationId == activeId) = true := by simp [h]
  refine ⟨?_, ?_, ?_⟩
  · rintro ⟨p, hp, hid⟩
    have hany : (prev.any fun p => p.id == m.id) = true :=
      List.any_eq_true.mpr ⟨p, hp, by simp [hid]⟩
    simp [deliverMessage, hc, hany]
  · by_cases hany : (prev.any fun p => p.id == m.id) = true
    · simp [deliverMessage, hc, hany]
    · simp only [Bool.not_eq_true] at hany
      simp [deliverMessage, hc, hany, List.any_append]
  · intro hcount
    have hany : (prev.any fun p => p.id == m.id) = false :=
      List.any_eq_false.mpr fun x hx => by
        simpa using List.countP_eq_zero.mp hcount x hx
    simp [deliverMessage, hc, hany, List.any_append, List.countP_append,
      hcount]

/-- C7 witness: delivering `msgPeer` twice to the open conversation `"x"`
equals delivering it once. -/
theorem c7_stream_dedup_witness :
    deliverMessage "x" (deliverMessage "x" [] msgPeer) msgPeer =
      deliverMessage "x" [] msgPeer :=
  (c7_stream_dedup "x" [] msgPeer rfl).2.1

/-- C8: for a target that is non-blank after trimming, `handleStartDm` always
produces a conversation; its outcome is independent of the reachability
probe (a negative probe does not block creation); a Denied existing consent
is reset to Unknown; and the final consent is Allowed only if it already was
Allowed before the handler ran. -/
theorem c8_start_dm (client altClient : DmClient) (addressToMessage : String)
    (h : jsTrim addressToMessage ≠ "") :
    (∃ out, handleStartDm client addressToMessage = some out) ∧
    (client.createDmWithIdentifier = altClient.createDmWithIdentifier →
      handleStartDm client addressToMessage =
        handleStartDm altClient addressToMessage) ∧
    (∀ out, handleStartDm client addressToMessage = some out →
      out.convoId =
        (client.createDmWithIdentifier (jsTrim addressToMessage)).id ∧
      ((client.createDmWithIdentifier (jsTrim addressToMessage)).consent =
          ConsentState.Denied → out.consentAfter = ConsentState.Unknown) ∧
      (out.consentAfter = ConsentState.Allowed →
        (client.createDmWithIdentifier (jsTrim addressToMessage)).consent =
          ConsentState.Allowed)) := by
  refine ⟨⟨_, by rw [handleStartDm, if_neg h]⟩, ?_, ?_⟩
  · intro hsame
    rw [handleStartDm, handleStartDm, hsame]
  · intro out hout
    rw [handleStartDm, if_neg h] at hout
    have hout' := Option.some.inj hout
    subst hout'
    refine ⟨rfl, ?_, ?_⟩
    · intro hd
      simp [hd]
    · intro hall
      by_cases hd : (client.createDmWithIdentifier
          (jsTrim addressToMessage)).consent = ConsentState.Denied
      · simp [hd] at hall
      · simpa [hd] using hall

/-- C8 witness: starting a DM with an unreachable, previously Denied target
still creates it and resets the consent to Unknown. -/
theorem c8_start_dm_witness :
    jsTrim "0xabc" ≠ "" ∧ dmStartW.consentAfter = ConsentState.Unknown :=
  ⟨by decide,
    ((c8_start_dm clientW clientW "0xabc" (by decide)).2.2 dmStartW
      rfl).2.1 rfl⟩

/-- C1 counterexample: the locally blocked conversation `"x"` is still
enumerated by the remote listing as Allowed, and the pass publishes it both
in the inbox bucket and in the blocked bucket. -/
theorem c1_counterexample :
    loadConversations remoteC1 storeBlockedX "me" = Except.ok resC1 ∧
    resC1.conversations.map ViewEntry.id = ["x"] ∧
    resC1.blocked.map ViewEntry.id = ["x"] ∧
    convoX.consent = ConsentState.Allowed ∧
    Except.ok convoX ∈ remoteC1.listing ∧
    "x" ∈ storeBlockedX.blockedIds :=
  ⟨rfl, rfl, rfl, rfl, List.mem_singleton_self _, List.mem_singleton_self _⟩

/-- C1 amended: the three published buckets are pairwise disjoint on
conversation ids provided every locally blocked id that the remote listing
still enumerates is listed with consent Denied (the overlay skip-check only
consults the Denied bucket, so a blocked id listed with a non-Denied state is
published twice). -/
theorem c1_buckets_disjoint (remote : Remote) (store : LocalStore)
    (myInboxId : String) (res : LoadResult)
    (hload : loadConversations remote store myInboxId = Except.ok res)
    (hnodup : ((listedConvos remote).map Conversation.id).Nodup)
    (hblocked : ∀ bid ∈ store.blockedIds, ∀ c ∈ listedConvos remote,
      c.id = bid → c.consent = ConsentState.Denied) :
    ∀ id : String,
      ¬(id ∈ res.conversations.map ViewEntry.id ∧
        id ∈ res.requests.map ViewEntry.id) ∧
      ¬(id ∈ res.conversations.map ViewEntry.id ∧
        id ∈ res.blocked.map ViewEntry.id) ∧
      ¬(id ∈ res.requests.map ViewEntry.id ∧
        id ∈ res.blocked.map ViewEntry.id) := by
  rcases hpl : processListed myInboxId store remote.listing ([], [], [])
    with u | t
  · rw [loadConversations, hpl] at hload
    exact absurd hload (by simp)
  · obtain ⟨a, r, b⟩ := t
    rw [loadConversations, hpl] at hload
    have hres := Except.ok.inj hload
    subst hres
    dsimp only
    obtain ⟨hA, hR, hB⟩ :=
      processListed_mem myInboxId store remote.listing ([], [], []) a r b hpl
    have hAc : ∀ e ∈ a, ∃ c ∈ listedConvos remote,
        c.consent = ConsentState.Allowed ∧ e.id = c.id := by
      intro e he
      rcases hA e he with h0 | ⟨c, hc, hcl, he2⟩
      · simp at h0
      · exact ⟨c, mem_listedConvos hc, classifyBucket_inbox_consent hcl,
          by rw [he2, mkItem_id]⟩
    have hRc : ∀ e ∈ r, ∃ c ∈ listedConvos remote,
        c.consent = ConsentState.Unknown ∧ e.id = c.id := by
      intro e he
      rcases hR e he with h0 | ⟨c, hc, hcl, he2⟩
      · simp at h0
      · exact ⟨c, mem_listedConvos hc, classifyBucket_requests_consent hcl,
          by rw [he2, mkItem_id]⟩
    have hBc : ∀ e ∈ b, ∃ c ∈ listedConvos remote,
        c.consent = ConsentState.Denied ∧ e.id = c.id := by
      intro e he
      rcases hB e he with h0 | ⟨c, hc, hcl, he2⟩
      · simp at h0
      · exact ⟨c, mem_listedConvos hc, classifyBucket_blocked_consent hcl,
          by rw [he2, mkItem_id]⟩
    have hBfin : ∀ e ∈ (overlayLoop remote store store.blockedIds b
        store.blockedIds).1,
        (∃ c ∈ listedConvos remote, c.consent = ConsentState.Denied ∧
          e.id = c.id) ∨ e.id ∈ store.blockedIds := by
      intro e he
      rcases overlayLoop_mem remote store _ _ _ e he with h1 | ⟨h1, _, _⟩
      · exact Or.inl (hBc e h1)
      · exact Or.inr h1
    have hinj := List.inj_on_of_nodup_map hnodup
    intro id
    refine ⟨?_, ?_, ?_⟩
    · rintro ⟨h1, h2⟩
      obtain ⟨e1, he1, hid1⟩ := List.mem_map.mp h1
      obtain ⟨c1, hc1, hcons1, hid1c⟩ := hAc e1 he1
      obtain ⟨e2, he2, hid2⟩ := List.mem_map.mp h2
      obtain ⟨c2, hc2, hcons2, hid2c⟩ := hRc e2 he2
      have hcid : c1.id = c2.id := by
        rw [← hid1c, ← hid2c, hid1, hid2]
      have hceq := hinj hc1 hc2 hcid
      rw [hceq, hcons2] at hcons1
      exact absurd hcons1 (by simp)
    · rintro ⟨h1, h2⟩
      obtain ⟨e1, he1, hid1⟩ := List.mem_map.mp h1
      obtain ⟨c1, hc1, hcons1, hid1c⟩ := hAc e1 he1
      obtain ⟨e2, he2, hid2⟩ := List.mem_map.mp h2
      rcases hBfin e2 he2 with ⟨c2, hc2, hcons2, hid2c⟩ | hbid
      · have hcid : c1.id = c2.id := by
          rw [← hid1c, ← hid2c, hid1, hid2]
        have hceq := hinj hc1 hc2 hcid
        rw [hceq, hcons2] at hcons1
        exact absurd hcons1 (by simp)
      · have hcd : c1.consent = ConsentState.Denied :=
          hblocked e2.id hbid c1 hc1 (by rw [← hid1c, hid1, hid2])
        rw [hcd] at hcons1
        exact absurd hcons1 (by simp)
    · rintro ⟨h1, h2⟩
      obtain ⟨e1, he1, hid1⟩ := List.mem_map.mp h1
      obtain ⟨c1, hc1, hcons1, hid1c⟩ := hRc e1 he1
      obtain ⟨e2, he2, hid2⟩ := List.mem_map.mp h2
      rcases hBfin e2 he2 with ⟨c2, hc2, hcons2, hid2c⟩ | hbid
      · have hcid : c1.id = c2.id := by
          rw [← hid1c, ← hid2c, hid1, hid2]
        have hceq := hinj hc1 hc2 hcid
        rw [hceq, hcons2] at hcons1
        exact absurd hcons1 (by simp)
      · have hcd : c1.consent = ConsentState.Denied :=
          hblocked e2.id hbid c1 hc1 (by rw [← hid1c, hid1, hid2])
        rw [hcd] at hcons1
        exact absurd hcons1 (by simp)

/-- C1 witness: on a pass with no blocked markers and a singleton listing,
the inbox and blocked buckets do not share the id `"y"`. -/
theorem c1_buckets_disjoint_witness :
    ((listedConvos remoteC6).map Conversation.id).Nodup ∧
    ¬("y" ∈ resC6.conversations.map ViewEntry.id ∧
      "y" ∈ resC6.blocked.map ViewEntry.id) := by
  refine ⟨by decide, ?_⟩
  exact ((c1_buckets_disjoint remoteC6 storeEmpty "me" resC6 rfl (by decide)
    fun bid hbid => by simp [storeEmpty] at hbid) "y").2.1

/-- C2 counterexample: with a failing listed conversation present, the whole
pass aborts with the pass-level error and nothing is published — although the
remaining conversation `convoX` would be published on its own. -/
theorem c2_counterexample :
    loadConversations remoteC2 storeEmpty "me" = Except.error () ∧
    Except.ok convoX ∈ remoteC2.listing ∧
    loadConversations remoteC2ok storeEmpty "me" = Except.ok resC2ok := by
  refine ⟨rfl, ?_, rfl⟩
  exact List.mem_cons_of_mem _ (List.mem_singleton_self _)

/-- C2 amended: a per-item fetch/sync failure of any listed conversation is
caught only by the pass-level handler, which aborts the pass and publishes
none of the buckets; when no listed conversation fails, the pass completes
(failures of the blocked-overlay direct fetches never abort it). -/
theorem c2_listed_failure_aborts (remote : Remote) (store : LocalStore)
    (myInboxId : String) :
    (Except.error () ∈ remote.listing →
      loadConversations remote store myInboxId = Except.error ()) ∧
    ((∀ x ∈ remote.listing, x ≠ Except.error ()) →
      ∃ res, loadConversations remote store myInboxId = Except.ok res) := by
  constructor
  · intro h
    rw [loadConversations, processListed_error_of_mem myInboxId store _ _ h]
  · intro h
    obtain ⟨t, ht⟩ := processListed_ok_of_no_error myInboxId store
      remote.listing ([], [], []) h
    obtain ⟨a, r, b⟩ := t
    rw [loadConversations, ht]
    exact ⟨_, rfl⟩

/-- C2 witness: the pass over `remoteC2` aborts with the pass-level error. -/
theorem c2_listed_failure_aborts_witness :
    loadConversations remoteC2 storeEmpty "me" = Except.error () :=
  (c2_listed_failure_aborts remoteC2 storeEmpty "me").1
    (List.mem_cons_self _ _)

/-- C3 counterexample: the direct fetch for the blocked id `"b"` resolves to
nothing (remote reports not-found without throwing), yet the pass keeps the
local blocked marker instead of retracting it, and synthesizes no entry. -/
theorem c3_counterexample :
    remoteC3.getById "b" = Except.ok none ∧
    loadConversations remoteC3 storeBlockedB "me" = Except.ok resC3 ∧
    resC3.blockedIdsAfter = ["b"] ∧
    resC3.blocked = [] :=
  ⟨rfl, rfl, rfl, rfl⟩

/-- C3 amended: for a locally blocked id absent from the listing, the pass
attempts a direct fetch; if it resolves to a conversation a Blocked entry
with that id is synthesized; if it resolves to nothing the marker is
retained; the marker is retracted exactly when the direct fetch throws. -/
theorem c3_blocked_overlay (remote : Remote) (store : LocalStore)
    (myInboxId : String) (res : LoadResult) (bid : String)
    (hload : loadConversations remote store myInboxId = Except.ok res)
    (hmem : bid ∈ store.blockedIds)
    (hnodup : store.blockedIds.Nodup)
    (hunlisted : ∀ c ∈ listedConvos remote, c.id ≠ bid) :
    (∀ c, remote.getById bid = Except.ok (some c) →
      bid ∈ res.blocked.map ViewEntry.id) ∧
    (remote.getById bid = Except.ok none → bid ∈ res.blockedIdsAfter) ∧
    (remote.getById bid = Except.error () → bid ∉ res.blockedIdsAfter) := by
  rcases hpl : processListed myInboxId store remote.listing ([], [], [])
    with u | t
  · rw [loadConversations, hpl] at hload
    exact absurd hload (by simp)
  · obtain ⟨a, r, b⟩ := t
    rw [loadConversations, hpl] at hload
    have hres := Except.ok.inj hload
    subst hres
    dsimp only
    obtain ⟨hA, hR, hB⟩ :=
      processListed_mem myInboxId store remote.listing ([], [], []) a r b hpl
    have hBne : ∀ e ∈ b, e.id ≠ bid := by
      intro e he
      rcases hB e he with h0 | ⟨c, hc, hcl, he2⟩
      · simp at h0
      · rw [he2, mkItem_id]
        exact hunlisted c (mem_listedConvos hc)
    refine ⟨?_, ?_, ?_⟩
    · intro c hg
      exact overlayLoop_add remote store _ _ _ _ _ hmem hg
    · intro hg
      exact overlayLoop_markers_keep remote store _ _ _ _
        (by simp [hg]) hmem
    · intro hg
      exact overlayLoop_markers_remove remote store _ _ _ _
        hnodup hmem hBne hg

/-- C3 witness: the blocked marker `"b"` survives a pass whose direct fetch
resolves to nothing. -/
theorem c3_blocked_overlay_witness :
    "b" ∈ storeBlockedB.blockedIds ∧ "b" ∈ resC3.blockedIdsAfter := by
  refine ⟨List.mem_singleton_self _, ?_⟩
  exact (c3_blocked_overlay remoteC3 storeBlockedB "me" resC3 "b" rfl
    (List.mem_singleton_self _) (by decide)
    fun c hc => by simp [listedConvos, remoteC3] at hc).2.1 rfl

/-- C9: every entry of the published blocked bucket either stems from a
Denied-classified listed conversation or is an overlay-synthesized entry for
a locally blocked id, and in the latter case its unreadCount is 0 — unread is
never computed for overlay-recovered blocked conversations. -/
theorem c9_overlay_unread_zero (remote : Remote) (store : LocalStore)
    (myInboxId : String) (res : LoadResult)
    (hload : loadConversations remote store myInboxId = Except.ok res) :
    ∀ e ∈ res.blocked,
      (∃ c ∈ listedConvos remote, c.consent = ConsentState.Denied ∧
        e = mkItem myInboxId store c) ∨
      (e.id ∈ store.blockedIds ∧ e.unreadCount = 0) := by
  rcases hpl : processListed myInboxId store remote.listing ([], [], [])
    with u | t
  · rw [loadConversations, hpl] at hload
    exact absurd hload (by simp)
  · obtain ⟨a, r, b⟩ := t
    rw [loadConversations, hpl] at hload
    have hres := Except.ok.inj hload
    subst hres
    dsimp only
    obtain ⟨hA, hR, hB⟩ :=
      processListed_mem myInboxId store remote.listing ([], [], []) a r b hpl
    intro e he
    rcases overlayLoop_mem remote store _ _ _ e he with h1 | ⟨h1, h2, _⟩
    · rcases hB e h1 with h0 | ⟨c, hc, hcl, he2⟩
      · simp at h0
      · exact Or.inl ⟨c, mem_listedConvos hc,
          classifyBucket_blocked_consent hcl, he2⟩
    · exact Or.inr ⟨h1, h2⟩

/-- C9 witness: the overlay-synthesized blocked entry for `"x"` has
unreadCount 0 even though its conversation has an unread peer message. -/
theorem c9_overlay_unread_zero_witness : entryX.unreadCount = 0 := by
  have h := c9_overlay_unread_zero remoteC9 storeBlockedX "me" resC9 rfl
    entryX (by simp [resC9])
  rcases h with ⟨c, hc, _, _⟩ | ⟨_, h0⟩
  · simp [listedConvos, remoteC9] at hc
  · exact h0

end Keytalk
